import Mathlib

/-!
Verification of the wasm extension-config conversion adapter of this
repository (package `wasm`, the file holding `MaybeConvertWasmExtensionConfig`,
`tryUnmarshal`, `convertWasmConfigFromRemoteToLocal` and
`containsWamrAotInCustomSection`, together with the pull-secret environment
rewrite of `InsertedExtensionConfigurations` in
`pilot/pkg/networking/core/v1alpha3/extension/wasmplugin.go`).

The Go protobuf messages are embedded structurally: a Go `nil` pointer or nil
map becomes `Option.none`, a Go map becomes an association list, and the
nil-safe generated getters become `Option.bind` chains.  The opaque byte-level
`anypb.Any` payloads are embedded as an inductive enumeration of the decode
outcomes at the unmarshalling boundary (the bytes themselves are external
input).  Re-marshalling an in-memory message back to `anypb.Any` cannot fail
for the well-formed messages this code builds, so it is embedded as total.
The wasm fetch cache behind the `Cache` interface and the wazero/file-system
environment of `containsWamrAotInCustomSection` are external to the shown
conversion code and are passed in as function parameters.
-/

deriving instance DecidableEq for Except

namespace IstioWasm

/-! ## Constants

`model.WasmSecretEnv`, `model.WasmPolicyEnv`, `model.WasmResourceVersionEnv`
and `bootstrap.IstioMetaPrefix` are the istio constants referenced by the
conversion code; `wamrRuntime`, `wamrAotPrefix`, `wamrAot` and
`wamrAotMaxVersion` are declared in the source file itself. -/

def istioMetaPrefixStr : String := "ISTIO_META_"

def wasmSecretEnv : String := "ISTIO_META_WASM_IMAGE_PULL_SECRET"

def wasmPolicyEnv : String := "ISTIO_META_WASM_IMAGE_PULL_POLICY"

def wasmResourceVersionEnv : String := "ISTIO_META_WASM_PLUGIN_RESOURCE_VERSION"

def wamrRuntime : String := "envoy.wasm.runtime.wamr"

def wamrAotPrefixStr : String := "wamr-aot-"

def wamrAot : String := "wamr-aot"

def wamrAotMaxVersion : String := "2.1.0"

/-! ## String helpers

Go `strings.HasPrefix` and `strings.TrimPrefix` over the character data of a
string (kept at the character level so that concrete instances evaluate). -/

/-- `strings.HasPrefix(s, p)`. -/
def strHasPre (s p : String) : Bool :=
  p.data.isPrefixOf s.data

/-- Drop the first `n` characters of `s`; under `strHasPre s p = true` with
`n = p.length` this is `strings.TrimPrefix(s, p)`. -/
def strDropData (s : String) (n : Nat) : String :=
  ⟨s.data.drop n⟩

/-! ## Data model -/

/-- `envoy core.HttpUri`: the fetch URI and the optional request timeout
(a nil `Timeout` is `none`; the duration is counted in nanoseconds). -/
structure HttpUri where
  uri : String
  timeout : Option Nat
deriving DecidableEq, Repr

/-- `envoy core.RemoteDataSource` restricted to the fields the conversion
reads: `http_uri` (a nil pointer is `none`) and `sha256`. -/
structure RemoteDataSource where
  httpUri : Option HttpUri
  sha256 : String
deriving DecidableEq, Repr

/-- `envoy core.AsyncDataSource`: the oneof specifier, remote or local.  The
local variant is restricted to the filename specifier the conversion writes. -/
inductive AsyncDataSource where
  | remote (r : RemoteDataSource)
  | localFile (filename : String)
deriving DecidableEq, Repr

/-- `envoy v3.EnvironmentVariables` of a wasm VM config: `host_env_keys` and
the `key_values` map.  `key_values = none` models a nil Go map (lookups miss,
deletes are no-ops, its length is 0). -/
structure EnvironmentVariables where
  hostEnvKeys : List String
  keyValues : Option (List (String × String))
deriving DecidableEq, Repr

/-- `envoy v3.VmConfig` restricted to the fields the conversion touches. -/
structure VmConfig where
  runtime : String
  allowPrecompiled : Bool
  environmentVariables : Option EnvironmentVariables
  code : Option AsyncDataSource
deriving DecidableEq, Repr

/-- The Go zero value of `VmConfig`, what a nil-safe getter chain reads
through a nil pointer. -/
def defaultVmConfig : VmConfig :=
  { runtime := "", allowPrecompiled := false
    environmentVariables := none, code := none }

/-- `envoy v3.PluginConfig` (the `config` field of the wasm filter):
its `name` and `vm_config`. -/
structure PluginConfig where
  name : String
  vmConfig : Option VmConfig
deriving DecidableEq, Repr

/-- `envoy wasm.Wasm`, the wasm HTTP filter message. -/
structure WasmFilter where
  config : Option PluginConfig
deriving DecidableEq, Repr

/-- Decode outcomes of the `typed_config` Any payload of a
`core.TypedExtensionConfig`, as `tryUnmarshal` distinguishes them:
a payload whose TypeUrl is `WasmHTTPFilterType` (whose inner unmarshal may
fail), a payload whose TypeUrl is `TypedStructType` (the struct unmarshal may
fail; a decoded struct either carries a wasm filter — whose
`StructToMessage` conversion may fail — or some other inner TypeUrl), or a
payload of any other TypeUrl. -/
inductive TypedConfigPayload where
  | wasmHTTPOk (w : WasmFilter)
  | wasmHTTPBad
  | typedStructBad
  | typedStructWasmOk (w : WasmFilter)
  | typedStructWasmBad
  | typedStructOther
  | otherType
deriving DecidableEq, Repr

/-- `envoy core.TypedExtensionConfig`: the resource name and the decoded view
of its `typed_config` Any (`none` models a nil `typed_config`). -/
structure TypedExtensionConfig where
  name : String
  typedConfig : Option TypedConfigPayload
deriving DecidableEq, Repr

/-- One `anypb.Any` resource of the batch: either its bytes do not unmarshal
into a `TypedExtensionConfig` at all, or they decode to one. -/
inductive AnyResource where
  | undecodable
  | decoded (ec : TypedExtensionConfig)
deriving DecidableEq, Repr

/-- `extensions.PullPolicy` of istio/api. -/
inductive PullPolicy where
  | unspecified
  | ifNotPresent
  | always
deriving DecidableEq, Repr

/-- The generated `extensions.PullPolicy_value` name table: the enum value a
pull-policy name denotes, `none` when the name is not in the table. -/
def PullPolicy.ofString : String → Option PullPolicy
  | "UNSPECIFIED_POLICY" => some .unspecified
  | "IfNotPresent" => some .ifNotPresent
  | "Always" => some .always
  | _ => none

/-- `wasm.GetOptions`, the options `convertWasmConfigFromRemoteToLocal`
passes to `cache.Get` (the pull secret is `none` while unset, mirroring the
nil byte slice). -/
structure GetOptions where
  checksum : String
  resourceName : String
  resourceVersion : String
  requestTimeout : Nat
  pullSecret : Option String
  pullPolicy : PullPolicy
deriving DecidableEq, Repr

/-- The error classes of the conversion, one per `fmt.Errorf` site of
`tryUnmarshal` and `convertWasmConfigFromRemoteToLocal`.  Re-marshalling the
rewritten message is embedded as total, so the two marshal-failure sites have
no constructor here. -/
inductive ConvErr where
  | unmarshalExtensionConfig
  | noTypedConfig
  | unmarshalWasmFilter
  | unmarshalTypedStruct
  | structToMessage
  | noRemoteAndLocalLoad
  | missingPullSecret (pluginName : String)
  | missingHttpUri
  | fetchFailure (uri : String) (msg : String)
deriving DecidableEq, Repr

/-! ## Nil-safe getters -/

/-- `wasmHTTPFilterConfig.Config.GetVmConfig()`. -/
def getVmConfig (w : WasmFilter) : Option VmConfig :=
  w.config.bind (·.vmConfig)

/-- `wasmHTTPFilterConfig.Config.Name` read through the getters (`""` through
a nil config, as the Go zero value reads). -/
def getConfigName (w : WasmFilter) : String :=
  (w.config.map (·.name)).getD ""

/-- `vm.GetCode().GetRemote()` on a `VmConfig`. -/
def getRemoteOfVm (vm : VmConfig) : Option RemoteDataSource :=
  vm.code.bind fun c =>
    match c with
    | .remote r => some r
    | .localFile _ => none

/-- `vm.GetCode().GetLocal()` on a `VmConfig` (the local filename). -/
def getLocalOfVm (vm : VmConfig) : Option String :=
  vm.code.bind fun c =>
    match c with
    | .remote _ => none
    | .localFile f => some f

/-- `wasmHTTPFilterConfig.Config.GetVmConfig().GetCode().GetRemote()`. -/
def getRemote (w : WasmFilter) : Option RemoteDataSource :=
  ((getVmConfig w).getD defaultVmConfig) |> getRemoteOfVm

/-- `wasmHTTPFilterConfig.Config.GetVmConfig().GetCode().GetLocal()`. -/
def getLocal (w : WasmFilter) : Option String :=
  ((getVmConfig w).getD defaultVmConfig) |> getLocalOfVm

/-! ## tryUnmarshal -/

/-- The tail of `tryUnmarshal` (source lines 157–166): reject a wasm filter
with neither a remote nor a local code source, bypass a local one, and hand a
remote one on. -/
def checkRemoteOrLocal (ec : TypedExtensionConfig) (w : WasmFilter) :
    Except ConvErr (Option (TypedExtensionConfig × WasmFilter)) :=
  match getRemote w with
  | none =>
    match getLocal w with
    | none => .error ConvErr.noRemoteAndLocalLoad
    | some _ => .ok none
  | some _ => .ok (some (ec, w))

/-- `tryUnmarshal`: decode the resource into a typed extension config and a
wasm HTTP filter.  `.ok none` means the resource is not a remote-wasm config
and is to be bypassed. -/
def tryUnmarshal (resource : AnyResource) :
    Except ConvErr (Option (TypedExtensionConfig × WasmFilter)) :=
  match resource with
  | .undecodable => .error ConvErr.unmarshalExtensionConfig
  | .decoded ec =>
    match ec.typedConfig with
    | none => .error ConvErr.noTypedConfig
    | some (.wasmHTTPOk w) => checkRemoteOrLocal ec w
    | some .wasmHTTPBad => .error ConvErr.unmarshalWasmFilter
    | some .typedStructBad => .error ConvErr.unmarshalTypedStruct
    | some (.typedStructWasmOk w) => checkRemoteOrLocal ec w
    | some .typedStructWasmBad => .error ConvErr.structToMessage
    | some .typedStructOther => .ok none
    | some .otherType => .ok none

/-! ## Environment metadata processing (source lines 177–213) -/

/-- Lines 191–195: the pull policy read from the env map; a value that is not
in the `PullPolicy_value` table leaves the policy `UNSPECIFIED_POLICY`. -/
def policyOf (kv : List (String × String)) : PullPolicy :=
  match kv.lookup wasmPolicyEnv with
  | some ps =>
    match PullPolicy.ofString ps with
    | some p => p
    | none => PullPolicy.unspecified
  | none => PullPolicy.unspecified

/-- Line 196: the resource version read from the env map (`""` on a miss, as
a Go map read). -/
def versionOf (kv : List (String × String)) : String :=
  (kv.lookup wasmResourceVersionEnv).getD ""

/-- Lines 198–212: delete every `ISTIO_META`-prefixed key from the env map;
when the map becomes empty drop the whole `EnvironmentVariables` if no host
env keys remain, else nil the map. -/
def stripAndPack (envs : EnvironmentVariables) : Option EnvironmentVariables :=
  let kv := (envs.keyValues.getD []).filter
    (fun e => !(strHasPre e.1 istioMetaPrefixStr))
  if kv.length = 0 then
    if envs.hostEnvKeys.length = 0 then none
    else some { envs with keyValues := none }
  else some { envs with keyValues := some kv }

/-- Lines 179–213 of `convertWasmConfigFromRemoteToLocal`: from the VM's
environment variables compute the rewritten environment block, the pull
secret, the pull policy and the resource version.  The error is the
missing-image-pulling-secret failure (a secret env key present with an empty
value). -/
def processEnvs (envs? : Option EnvironmentVariables) :
    Except Unit (Option EnvironmentVariables × Option String × PullPolicy × String) :=
  match envs? with
  | none => .ok (none, none, PullPolicy.unspecified, "")
  | some envs =>
    let kv := envs.keyValues.getD []
    match kv.lookup wasmSecretEnv with
    | some sec =>
      if sec = "" then .error ()
      else .ok (stripAndPack envs, some sec, policyOf kv, versionOf kv)
    | none => .ok (stripAndPack envs, none, policyOf kv, versionOf kv)

/-! ## containsWamrAotInCustomSection (source lines 285–318) -/

/-- The environment of `containsWamrAotInCustomSection` at a given module
path: `os.ReadFile` may fail, `wazero CompileModule` may fail, or the module
compiles and exposes its custom-section names in order. -/
inductive WasmFileInspect where
  | unreadable
  | uncompilable
  | compiled (sectionNames : List String)
deriving DecidableEq, Repr

/-- Split a character list at the dots, as `strings.Split(s, ".")` does. -/
def splitDots : List Char → List (List Char)
  | [] => [[]]
  | c :: cs =>
    if c = '.' then [] :: splitDots cs
    else
      match splitDots cs with
      | [] => [[c]]
      | h :: t => (c :: h) :: t

/-- One numeric version segment: all digits and nonempty, else `none`. -/
def parseSegment (l : List Char) : Option Nat :=
  if l = [] then none
  else if l.all Char.isDigit then
    some (l.foldl (fun n c => n * 10 + (c.toNat - 48)) 0)
  else none

/-- Model of the external `hashicorp/go-version` parser on the plain dotted
numeral versions this code compares: the numeric segments, `none` when a
segment is not a numeral. -/
def parseVersion (s : String) : Option (List Nat) :=
  (splitDots s.data).mapM parseSegment

/-- Model of `hashicorp/go-version` `LessThan`: segment-wise numeric
comparison, a missing segment counting as zero. -/
def versionLT : List Nat → List Nat → Bool
  | [], bs => bs.any (fun b => decide (0 < b))
  | _ :: _, [] => false
  | a :: as, b :: bs =>
    if a < b then true
    else if b < a then false
    else versionLT as bs

/-- The section loop of `containsWamrAotInCustomSection` (lines 303–317): the
first section whose name has the `wamr-aot-` prefix decides — parse the rest
of its name as a version and grant the hint exactly below `wamrAotMaxVersion`
(a parse failure returns false) — and a section named exactly `wamr-aot`
found first grants the hint. -/
def scanSections : List String → Bool
  | [] => false
  | name :: rest =>
    if strHasPre name wamrAotPrefixStr then
      match parseVersion (strDropData name wamrAotPrefixStr.length) with
      | none => false
      | some v => versionLT v ((parseVersion wamrAotMaxVersion).getD [])
    else if name = wamrAot then true
    else scanSections rest

/-- `containsWamrAotInCustomSection` over the inspection outcome at the
module path: false when the file cannot be read or the module cannot be
compiled, else the section scan. -/
def containsWamrAotInCustomSection : WasmFileInspect → Bool
  | .unreadable => false
  | .uncompilable => false
  | .compiled names => scanSections names

/-! ## convertWasmConfigFromRemoteToLocal (source lines 169–282) -/

/-- `convertWasmConfigFromRemoteToLocal`.  `fetch` is the external
`cache.Get` (uri and options to a local path or an error message); `inspect`
is the file-system/wazero environment of the custom-section check at a local
path.  On success the rewritten resource carries the wasm filter with the
code source swapped to the fetched local file, the internal env keys
stripped, and — under the wamr-aot hint — the wamr runtime selected. -/
def convertWasmConfigFromRemoteToLocal
    (fetch : String → GetOptions → Except String String)
    (inspect : String → WasmFileInspect)
    (ec : TypedExtensionConfig) (w : WasmFilter) :
    Except ConvErr TypedExtensionConfig :=
  let vm := (getVmConfig w).getD defaultVmConfig
  match processEnvs vm.environmentVariables with
  | .error _ => .error (ConvErr.missingPullSecret (getConfigName w))
  | .ok (newEnvs, pullSecret, pullPolicy, resourceVersion) =>
    match getRemoteOfVm vm with
    | none => .error ConvErr.missingHttpUri
    | some remote =>
      match remote.httpUri with
      | none => .error ConvErr.missingHttpUri
      | some hu =>
        let sha := if remote.sha256 = "nil" then "" else remote.sha256
        let timeout := hu.timeout.getD 5000000000
        match fetch hu.uri
            { checksum := sha, resourceName := ec.name
              resourceVersion := resourceVersion, requestTimeout := timeout
              pullSecret := pullSecret, pullPolicy := pullPolicy } with
        | .error msg => .error (ConvErr.fetchFailure hu.uri msg)
        | .ok f =>
          let hasAot := containsWamrAotInCustomSection (inspect f)
          let vm2 : VmConfig :=
            { vm with
              environmentVariables := newEnvs
              runtime := if hasAot then wamrRuntime else vm.runtime
              allowPrecompiled := if hasAot then true else vm.allowPrecompiled
              code := some (AsyncDataSource.localFile f) }
          let w2 : WasmFilter :=
            { config := w.config.map (fun c => { c with vmConfig := some vm2 }) }
          .ok { ec with typedConfig := some (TypedConfigPayload.wasmHTTPOk w2) }

/-! ## MaybeConvertWasmExtensionConfig (source lines 64–113)

Each goroutine of the source reads only `resources[i]` and writes only
`resources[i]` and `convertErrs[i]`; the fan-out over disjoint slots is
embedded as an index-wise map. -/

/-- The body of the per-resource goroutine: the resulting resource slot (the
original on a bypass or an error) and the error slot. -/
def processResource (fetch : String → GetOptions → Except String String)
    (inspect : String → WasmFileInspect) (r : AnyResource) :
    AnyResource × Option ConvErr :=
  match tryUnmarshal r with
  | .error e => (r, some e)
  | .ok none => (r, none)
  | .ok (some (ec, w)) =>
    match convertWasmConfigFromRemoteToLocal fetch inspect ec w with
    | .error e => (r, some e)
    | .ok nec => (AnyResource.decoded nec, none)

/-- `MaybeConvertWasmExtensionConfig` before its error aggregation: the
rewritten resource slice and the per-resource error slice. -/
def maybeConvertWasmExtensionConfig
    (fetch : String → GetOptions → Except String String)
    (inspect : String → WasmFileInspect) (resources : List AnyResource) :
    List AnyResource × List (Option ConvErr) :=
  (resources.map (fun r => (processResource fetch inspect r).1),
   resources.map (fun r => (processResource fetch inspect r).2))

/-- `multierror.Append(nil, convertErrs...).ErrorOrNil()`: the non-nil errors
collected in slot order, `none` when there is none. -/
def aggregateError (errs : List (Option ConvErr)) : Option (List ConvErr) :=
  match errs.filterMap id with
  | [] => none
  | es => some es

/-- The error `MaybeConvertWasmExtensionConfig` returns. -/
def maybeConvertError (fetch : String → GetOptions → Except String String)
    (inspect : String → WasmFileInspect) (resources : List AnyResource) :
    Option (List ConvErr) :=
  aggregateError (maybeConvertWasmExtensionConfig fetch inspect resources).2

/-! ## The pull-secret env rewrite of `InsertedExtensionConfigurations`
(wasmplugin.go lines 119–127) -/

/-- A Go map write `kv[k] = v` on a key already present: every entry under
the key takes the new value (a Go map holds the key once). -/
def setKV (kv : List (String × String)) (k v : String) :
    List (String × String) :=
  kv.map (fun e => if e.1 = k then (k, v) else e)

/-- Lines 119–127 of `InsertedExtensionConfigurations`: read the secret
resource name from the wasm VM env map and replace it with the actual secret
from `pullSecrets`, or with the empty string when the secret is not found. -/
def updatePullSecretEnv (pullSecrets : List (String × String))
    (kv : List (String × String)) : List (String × String) :=
  let secretName := (kv.lookup wasmSecretEnv).getD ""
  if secretName = "" then kv
  else
    match pullSecrets.lookup secretName with
    | some sec => setKV kv wasmSecretEnv sec
    | none => setKV kv wasmSecretEnv ""

/-- The wasm filter with the sha256 of its remote code source (when it has
one) replaced: the two instances `setRemoteSha w "nil"` and
`setRemoteSha w ""` are the same request with the checksum sentinel spelled
the two ways the upstream sends it. -/
def setRemoteSha (w : WasmFilter) (s : String) : WasmFilter :=
  { config := w.config.map fun c =>
    { c with vmConfig := c.vmConfig.map fun vm =>
      { vm with code := vm.code.map fun cd =>
        match cd with
        | .remote r => .remote { r with sha256 := s }
        | .localFile f => .localFile f } } }

namespace SingleFlight

/-!
Modelled from the spec: the single-flight fetch coordinator behind the wasm
`Cache` interface (spec section 4.2 steps 1, 2 and 7, section 5 and the
glossary entry "Single-flight") is not among the shown sources — only the
`Cache` interface and its call site are.  The model below renders the spec's
words: a resolve call for a key with a cached entry returns it; a call for a
key already in flight joins that flight's waiter list; a call for a key not
in flight starts exactly one network fetch; a completed fetch hands its
result (the local path, or the error) to every waiter, caches the path on
success, and caches nothing on an error.  Callers are named by numbers and
the network fetch for a key is recorded in a log when it starts.
-/

/-- One scheduler event: a caller's resolve call arriving for a key, or the
in-flight network fetch of a key completing with a result. -/
inductive SFEvent where
  | arrive (caller : Nat) (key : String)
  | finish (key : String) (result : Except String String)
deriving DecidableEq, Repr

/-- The coordinator state: the waiter lists of the keys in flight, the
outcome each settled caller received, the cached local paths, and the log of
network fetches started. -/
structure SFState where
  inflight : List (String × List Nat)
  results : List (Nat × Except String String)
  cacheMap : List (String × String)
  fetchLog : List String
deriving DecidableEq, Repr

/-- The empty coordinator: nothing cached, nothing in flight. -/
def sfInit : SFState :=
  { inflight := [], results := [], cacheMap := [], fetchLog := [] }

/-- Replace the waiter list of a key already in flight. -/
def setWaiters (infl : List (String × List Nat)) (k : String)
    (ws : List Nat) : List (String × List Nat) :=
  infl.map (fun e => if e.1 = k then (k, ws) else e)

/-- Drop a key from the in-flight table. -/
def dropKey (infl : List (String × List Nat)) (k : String) :
    List (String × List Nat) :=
  infl.filter (fun e => !(e.1 = k : Bool))

/-- One step of the coordinator. -/
def sfStep (s : SFState) : SFEvent → SFState
  | .arrive c k =>
    match s.cacheMap.lookup k with
    | some path => { s with results := (c, Except.ok path) :: s.results }
    | none =>
      match s.inflight.lookup k with
      | some ws => { s with inflight := setWaiters s.inflight k (c :: ws) }
      | none =>
        { s with inflight := (k, [c]) :: s.inflight
                 fetchLog := k :: s.fetchLog }
  | .finish k r =>
    match s.inflight.lookup k with
    | some ws =>
      { s with
        results := ws.map (fun c => (c, r)) ++ s.results
        inflight := dropKey s.inflight k
        cacheMap :=
          match r with
          | Except.ok path => (k, path) :: s.cacheMap
          | Except.error _ => s.cacheMap }
    | none => s

/-- Run the coordinator over a schedule of events. -/
def sfRun (s : SFState) (events : List SFEvent) : SFState :=
  events.foldl sfStep s

end SingleFlight

end IstioWasm

/-! ## Theorems -/

namespace IstioWasm

theorem maybeConvert_fst_get (fetch : String → GetOptions → Except String String)
    (inspect : String → WasmFileInspect) (rs : List AnyResource) (i : Nat) :
    (maybeConvertWasmExtensionConfig fetch inspect rs).1[i]? =
      rs[i]?.map (fun r => (processResource fetch inspect r).1) := by
  simp [maybeConvertWasmExtensionConfig, List.getElem?_map]

theorem maybeConvert_snd_get (fetch : String → GetOptions → Except String String)
    (inspect : String → WasmFileInspect) (rs : List AnyResource) (i : Nat) :
    (maybeConvertWasmExtensionConfig fetch inspect rs).2[i]? =
      rs[i]?.map (fun r => (processResource fetch inspect r).2) := by
  simp [maybeConvertWasmExtensionConfig, List.getElem?_map]

theorem aggregateError_eq_none_iff (errs : List (Option ConvErr)) :
    aggregateError errs = none ↔ ∀ e ∈ errs, e = none := by
  unfold aggregateError
  rcases h : errs.filterMap id with _ | ⟨x, xs⟩
  · simp only [List.filterMap_eq_nil_iff] at h
    simpa using h
  · constructor
    · intro hc; exact absurd hc (by simp)
    · intro hall
      have : errs.filterMap id = [] := by
        rw [List.filterMap_eq_nil_iff]
        intro a ha; simpa using hall a ha
      rw [this] at h; exact absurd h (by simp)

theorem mem_of_get_some {α : Type} (l : List α) (i : Nat) (a : α)
    (h : l[i]? = some a) : a ∈ l := by
  obtain ⟨hlt, hv⟩ := List.getElem?_eq_some.mp h
  exact hv ▸ List.getElem_mem hlt

/-- C2: each resource of a batch is processed independently — the output and
error slots at every index other than a changed one are unchanged — and the
combined error is nil exactly when no per-resource error was recorded. -/
theorem claim2_batch_isolation_and_aggregation
    (fetch : String → GetOptions → Except String String)
    (inspect : String → WasmFileInspect)
    (rs rs' : List AnyResource) (j : Nat)
    (hagree : ∀ i, i ≠ j → rs[i]? = rs'[i]?) :
    (∀ i, i ≠ j →
      (maybeConvertWasmExtensionConfig fetch inspect rs).1[i]? =
        (maybeConvertWasmExtensionConfig fetch inspect rs').1[i]? ∧
      (maybeConvertWasmExtensionConfig fetch inspect rs).2[i]? =
        (maybeConvertWasmExtensionConfig fetch inspect rs').2[i]?) ∧
    (maybeConvertError fetch inspect rs = none ↔
      ∀ e ∈ (maybeConvertWasmExtensionConfig fetch inspect rs).2, e = none) := by
  constructor
  · intro i hi
    rw [maybeConvert_fst_get, maybeConvert_fst_get, maybeConvert_snd_get,
      maybeConvert_snd_get, hagree i hi]
    exact ⟨rfl, rfl⟩
  · exact aggregateError_eq_none_iff _

theorem claim2_witness :
    ((maybeConvertWasmExtensionConfig (fun _ _ => Except.ok "/p")
        (fun _ => WasmFileInspect.unreadable) [AnyResource.undecodable]).2[1]? =
      (maybeConvertWasmExtensionConfig (fun _ _ => Except.ok "/p")
        (fun _ => WasmFileInspect.unreadable) [AnyResource.undecodable]).2[1]?) ∧
    (maybeConvertError (fun _ _ => Except.ok "/p")
        (fun _ => WasmFileInspect.unreadable) [AnyResource.undecodable] = none ↔
      ∀ e ∈ (maybeConvertWasmExtensionConfig (fun _ _ => Except.ok "/p")
        (fun _ => WasmFileInspect.unreadable) [AnyResource.undecodable]).2, e = none) :=
  ⟨((claim2_batch_isolation_and_aggregation (fun _ _ => Except.ok "/p")
      (fun _ => WasmFileInspect.unreadable) [AnyResource.undecodable]
      [AnyResource.undecodable] 0 (fun _ _ => rfl)).1 1 (by decide)).2,
   (claim2_batch_isolation_and_aggregation (fun _ _ => Except.ok "/p")
      (fun _ => WasmFileInspect.unreadable) [AnyResource.undecodable]
      [AnyResource.undecodable] 0 (fun _ _ => rfl)).2⟩

/-- C5: a wasm extension config with neither a remote nor a local code source
is rejected by the unmarshalling step with the no-load error; in any batch its
slot carries that error for every fetch environment (so before any network
attempt) and the aggregate error is not nil. -/
theorem claim5_no_source_rejected
    (ec : TypedExtensionConfig) (w : WasmFilter)
    (hpayload : ec.typedConfig = some (TypedConfigPayload.wasmHTTPOk w) ∨
      ec.typedConfig = some (TypedConfigPayload.typedStructWasmOk w))
    (hr : getRemote w = none) (hl : getLocal w = none) :
    tryUnmarshal (AnyResource.decoded ec) = Except.error ConvErr.noRemoteAndLocalLoad ∧
    ∀ (fetch : String → GetOptions → Except String String)
      (inspect : String → WasmFileInspect) (rs : List AnyResource) (i : Nat),
      rs[i]? = some (AnyResource.decoded ec) →
      (maybeConvertWasmExtensionConfig fetch inspect rs).2[i]? =
        some (some ConvErr.noRemoteAndLocalLoad) ∧
      maybeConvertError fetch inspect rs ≠ none := by
  have hrej : tryUnmarshal (AnyResource.decoded ec) =
      Except.error ConvErr.noRemoteAndLocalLoad := by
    rcases hpayload with h | h <;>
      simp [tryUnmarshal, h, checkRemoteOrLocal, hr, hl]
  refine ⟨hrej, ?_⟩
  intro fetch inspect rs i hi
  have herr : (maybeConvertWasmExtensionConfig fetch inspect rs).2[i]? =
      some (some ConvErr.noRemoteAndLocalLoad) := by
    rw [maybeConvert_snd_get, hi]
    simp [processResource, hrej]
  refine ⟨herr, ?_⟩
  intro hnone
  rw [maybeConvertError, aggregateError_eq_none_iff] at hnone
  have hmem : some ConvErr.noRemoteAndLocalLoad ∈
      (maybeConvertWasmExtensionConfig fetch inspect rs).2 :=
    mem_of_get_some _ i _ herr
  exact absurd (hnone _ hmem) (by simp)

theorem claim5_witness :
    (tryUnmarshal (AnyResource.decoded (TypedExtensionConfig.mk "x"
      (some (TypedConfigPayload.wasmHTTPOk (WasmFilter.mk (some (PluginConfig.mk "p"
        (some (VmConfig.mk "" false none none))))))))) =
      Except.error ConvErr.noRemoteAndLocalLoad) ∧
    maybeConvertError (fun _ _ => Except.ok "/p") (fun _ => WasmFileInspect.unreadable)
      [AnyResource.decoded (TypedExtensionConfig.mk "x"
        (some (TypedConfigPayload.wasmHTTPOk (WasmFilter.mk (some (PluginConfig.mk "p"
          (some (VmConfig.mk "" false none none))))))))] ≠ none := by
  have h := claim5_no_source_rejected
    (TypedExtensionConfig.mk "x"
      (some (TypedConfigPayload.wasmHTTPOk (WasmFilter.mk (some (PluginConfig.mk "p"
        (some (VmConfig.mk "" false none none))))))))
    (WasmFilter.mk (some (PluginConfig.mk "p" (some (VmConfig.mk "" false none none)))))
    (Or.inl rfl) (by decide) (by decide)
  exact ⟨h.1, (h.2 (fun _ _ => Except.ok "/p") (fun _ => WasmFileInspect.unreadable)
    [AnyResource.decoded (TypedExtensionConfig.mk "x"
      (some (TypedConfigPayload.wasmHTTPOk (WasmFilter.mk (some (PluginConfig.mk "p"
        (some (VmConfig.mk "" false none none))))))))] 0 rfl).2⟩

/-- C6: a resource the unmarshalling step bypasses (not a wasm filter, or a
wasm filter with a local code source) is passed through unmodified and its
error slot stays empty, for every fetch environment. -/
theorem claim6_bypass_unmodified (r : AnyResource)
    (h : tryUnmarshal r = Except.ok none) :
    ∀ (fetch : String → GetOptions → Except String String)
      (inspect : String → WasmFileInspect) (rs : List AnyResource) (i : Nat),
      rs[i]? = some r →
      (maybeConvertWasmExtensionConfig fetch inspect rs).1[i]? = some r ∧
      (maybeConvertWasmExtensionConfig fetch inspect rs).2[i]? = some none := by
  intro fetch inspect rs i hi
  rw [maybeConvert_fst_get, maybeConvert_snd_get, hi]
  simp [processResource, h]

theorem claim6_witness :
    (maybeConvertWasmExtensionConfig (fun _ _ => Except.ok "/p")
      (fun _ => WasmFileInspect.unreadable)
      [AnyResource.decoded (TypedExtensionConfig.mk "x"
        (some TypedConfigPayload.otherType))]).1[0]? =
      some (AnyResource.decoded (TypedExtensionConfig.mk "x"
        (some TypedConfigPayload.otherType))) ∧
    (maybeConvertWasmExtensionConfig (fun _ _ => Except.ok "/p")
      (fun _ => WasmFileInspect.unreadable)
      [AnyResource.decoded (TypedExtensionConfig.mk "x"
        (some TypedConfigPayload.otherType))]).2[0]? = some none :=
  claim6_bypass_unmodified
    (AnyResource.decoded (TypedExtensionConfig.mk "x" (some TypedConfigPayload.otherType)))
    (by decide) (fun _ _ => Except.ok "/p") (fun _ => WasmFileInspect.unreadable)
    _ 0 rfl

end IstioWasm

namespace IstioWasm

theorem setKV_lookup (kv : List (String × String)) (k v s : String)
    (h : kv.lookup k = some s) : (setKV kv k v).lookup k = some v := by
  induction kv with
  | nil => simp at h
  | cons e es ih =>
    obtain ⟨a, b⟩ := e
    by_cases hk : a = k
    · subst hk
      have hrw : setKV ((a, b) :: es) a v = (a, v) :: setKV es a v := by
        simp [setKV]
      rw [hrw]
      simp [List.lookup]
    · have hbeq : (k == a) = false := by
        rw [beq_eq_false_iff_ne]; exact fun hkk => hk hkk.symm
      have hrw : setKV ((a, b) :: es) k v = (a, b) :: setKV es k v := by
        simp [setKV, if_neg hk]
      simp only [List.lookup, hbeq] at h
      rw [hrw]
      simp only [List.lookup, hbeq]
      exact ih h

/-- C4: when the upstream secret rewrite maps an unresolvable pull-secret name
to the empty string, the conversion of that resource fails with the
missing-image-pulling-secret error for every fetch environment — the fetch
cache is never consulted and no cached artifact can be served. -/
theorem claim4_unresolvable_secret_fails
    (pullSecrets kv0 : List (String × String)) (name : String)
    (h1 : kv0.lookup wasmSecretEnv = some name) (h2 : name ≠ "")
    (h3 : pullSecrets.lookup name = none) :
    (updatePullSecretEnv pullSecrets kv0).lookup wasmSecretEnv = some "" ∧
    ∀ (fetch : String → GetOptions → Except String String)
      (inspect : String → WasmFileInspect)
      (ec : TypedExtensionConfig) (w : WasmFilter) (envs : EnvironmentVariables),
      ((getVmConfig w).getD defaultVmConfig).environmentVariables = some envs →
      envs.keyValues.getD [] = updatePullSecretEnv pullSecrets kv0 →
      convertWasmConfigFromRemoteToLocal fetch inspect ec w =
        Except.error (ConvErr.missingPullSecret (getConfigName w)) := by
  have hlook : (updatePullSecretEnv pullSecrets kv0).lookup wasmSecretEnv = some "" := by
    unfold updatePullSecretEnv
    rw [h1]
    simp only [Option.getD_some, if_neg h2, h3]
    exact setKV_lookup kv0 wasmSecretEnv "" name h1
  refine ⟨hlook, ?_⟩
  intro fetch inspect ec w envs henv hkv
  simp only [convertWasmConfigFromRemoteToLocal, henv, processEnvs, hkv, hlook]
  simp

theorem claim4_witness :
    (updatePullSecretEnv [] [(wasmSecretEnv, "mysecret")]).lookup wasmSecretEnv = some "" ∧
    convertWasmConfigFromRemoteToLocal (fun _ _ => Except.ok "/p")
      (fun _ => WasmFileInspect.unreadable)
      (TypedExtensionConfig.mk "x" none)
      (WasmFilter.mk (some (PluginConfig.mk "p" (some (VmConfig.mk "" false
        (some (EnvironmentVariables.mk []
          (some (updatePullSecretEnv [] [(wasmSecretEnv, "mysecret")]))))
        none))))) =
      Except.error (ConvErr.missingPullSecret "p") := by
  have h := claim4_unresolvable_secret_fails [] [(wasmSecretEnv, "mysecret")] "mysecret"
    (by decide) (by decide) rfl
  exact ⟨h.1, h.2 (fun _ _ => Except.ok "/p") (fun _ => WasmFileInspect.unreadable)
    (TypedExtensionConfig.mk "x" none) _ _ rfl rfl⟩

/-- C10: a pull-policy env value that is not a recognized enum name is
silently ignored — the options computed carry the UNSPECIFIED policy, and the
whole conversion only depends on the fetch function's behaviour at
UNSPECIFIED-policy options, so the resource is not failed. -/
theorem claim10_unknown_policy_ignored (envs : EnvironmentVariables) (ps : String)
    (h1 : (envs.keyValues.getD []).lookup wasmPolicyEnv = some ps)
    (h2 : PullPolicy.ofString ps = none) :
    (∀ out, processEnvs (some envs) = Except.ok out →
      out.2.2.1 = PullPolicy.unspecified) ∧
    ∀ (fetch1 fetch2 : String → GetOptions → Except String String)
      (inspect : String → WasmFileInspect)
      (ec : TypedExtensionConfig) (w : WasmFilter),
      ((getVmConfig w).getD defaultVmConfig).environmentVariables = some envs →
      (∀ uri opts, opts.pullPolicy = PullPolicy.unspecified →
        fetch1 uri opts = fetch2 uri opts) →
      convertWasmConfigFromRemoteToLocal fetch1 inspect ec w =
        convertWasmConfigFromRemoteToLocal fetch2 inspect ec w := by
  have hpol : policyOf (envs.keyValues.getD []) = PullPolicy.unspecified := by
    simp [policyOf, h1, h2]
  have hout : ∀ out, processEnvs (some envs) = Except.ok out →
      out.2.2.1 = PullPolicy.unspecified := by
    intro out hok
    simp only [processEnvs] at hok
    rcases hsec : (envs.keyValues.getD []).lookup wasmSecretEnv with _ | sec
    · simp only [hsec] at hok
      simp only [Except.ok.injEq] at hok
      subst hok
      exact hpol
    · simp only [hsec] at hok
      by_cases hempty : sec = ""
      · simp [hempty] at hok
      · rw [if_neg hempty] at hok
        simp only [Except.ok.injEq] at hok
        subst hok
        exact hpol
  refine ⟨hout, ?_⟩
  intro fetch1 fetch2 inspect ec w henv hagree
  rcases hpe : processEnvs (some envs) with e | ⟨ne, psec, pol, rv⟩
  · simp only [convertWasmConfigFromRemoteToLocal, henv, hpe]
  · have hp : pol = PullPolicy.unspecified := hout (ne, psec, pol, rv) hpe
    subst hp
    simp only [convertWasmConfigFromRemoteToLocal, henv, hpe]
    rcases hrem : getRemoteOfVm ((getVmConfig w).getD defaultVmConfig) with _ | remote
    · simp only [hrem]
    · simp only [hrem]
      rcases hhu : remote.httpUri with _ | hu
      · simp only [hhu]
      · simp only [hhu]
        have harg := hagree hu.uri
          ⟨if remote.sha256 = "nil" then "" else remote.sha256, ec.name, rv,
            hu.timeout.getD 5000000000, psec, PullPolicy.unspecified⟩ rfl
        rw [harg]

theorem claim10_witness :
    ((none : Option EnvironmentVariables), (none : Option String),
      PullPolicy.unspecified, "").2.2.1 = PullPolicy.unspecified ∧
    convertWasmConfigFromRemoteToLocal (fun _ _ => Except.ok "/a")
        (fun _ => WasmFileInspect.unreadable)
        (TypedExtensionConfig.mk "x" none)
        (WasmFilter.mk (some (PluginConfig.mk "p" (some (VmConfig.mk "" false
          (some (EnvironmentVariables.mk [] (some [(wasmPolicyEnv, "Sometimes")])))
          none))))) =
      convertWasmConfigFromRemoteToLocal
        (fun _ opts => if opts.pullPolicy = PullPolicy.unspecified
          then Except.ok "/a" else Except.error "boom")
        (fun _ => WasmFileInspect.unreadable)
        (TypedExtensionConfig.mk "x" none)
        (WasmFilter.mk (some (PluginConfig.mk "p" (some (VmConfig.mk "" false
          (some (EnvironmentVariables.mk [] (some [(wasmPolicyEnv, "Sometimes")])))
          none))))) := by
  have h := claim10_unknown_policy_ignored
    (EnvironmentVariables.mk [] (some [(wasmPolicyEnv, "Sometimes")]))
    "Sometimes" (by decide) (by decide)
  refine ⟨h.1 (none, none, PullPolicy.unspecified, "") (by decide), ?_⟩
  exact h.2 (fun _ _ => Except.ok "/a")
    (fun _ opts => if opts.pullPolicy = PullPolicy.unspecified
      then Except.ok "/a" else Except.error "boom")
    (fun _ => WasmFileInspect.unreadable)
    (TypedExtensionConfig.mk "x" none) _ rfl
    (fun uri opts hopts => by simp [hopts])

/-- C3: a remote wasm config whose sha256 is the literal string "nil" behaves
exactly as the same config with an empty sha256 — the sentinel is normalized
to empty before the fetch cache is invoked. -/
theorem claim3_nil_checksum_as_empty
    (fetch : String → GetOptions → Except String String)
    (inspect : String → WasmFileInspect)
    (ec : TypedExtensionConfig) (w : WasmFilter) :
    convertWasmConfigFromRemoteToLocal fetch inspect ec (setRemoteSha w "nil") =
      convertWasmConfigFromRemoteToLocal fetch inspect ec (setRemoteSha w "") := by
  obtain ⟨cfg⟩ := w
  rcases cfg with _ | ⟨nm, vmc⟩
  · rfl
  rcases vmc with _ | ⟨rt, ap, envs, code⟩
  · rfl
  rcases code with _ | cd
  · rfl
  rcases cd with r | f
  case mk.some.mk.some.mk.some.localFile => rfl
  obtain ⟨hu, sha⟩ := r
  simp only [convertWasmConfigFromRemoteToLocal, setRemoteSha, getVmConfig,
    getRemoteOfVm, getConfigName, Option.map_some, Option.bind_some,
    Option.getD_some]
  simp

end IstioWasm

namespace IstioWasm

theorem stripAndPack_props (envs : EnvironmentVariables) (e : EnvironmentVariables)
    (h : stripAndPack envs = some e) :
    (∀ x ∈ e.keyValues.getD [], strHasPre x.1 istioMetaPrefixStr = false) ∧
    e.keyValues ≠ some [] ∧
    (e.keyValues = none → e.hostEnvKeys ≠ []) := by
  unfold stripAndPack at h
  by_cases hlen : ((envs.keyValues.getD []).filter
      (fun x => !(strHasPre x.1 istioMetaPrefixStr))).length = 0
  · rw [if_pos hlen] at h
    by_cases hhost : envs.hostEnvKeys.length = 0
    · rw [if_pos hhost] at h
      exact absurd h (by simp)
    · rw [if_neg hhost] at h
      simp only [Option.some.injEq] at h
      subst h
      refine ⟨by simp, by simp, ?_⟩
      intro _ hcon
      exact hhost (by rw [hcon]; rfl)
  · rw [if_neg hlen] at h
    simp only [Option.some.injEq] at h
    subst h
    refine ⟨?_, ?_, by simp⟩
    · intro x hx
      simp only [Option.getD_some] at hx
      have := List.of_mem_filter hx
      simpa using this
    · simp only [ne_eq, Option.some.injEq]
      intro hcon
      exact hlen (by rw [hcon]; rfl)

theorem processEnvs_newEnvs_props (envs? : Option EnvironmentVariables)
    (ne : Option EnvironmentVariables) (psec : Option String)
    (pol : PullPolicy) (rv : String)
    (h : processEnvs envs? = Except.ok (ne, psec, pol, rv)) :
    ∀ e, ne = some e →
      (∀ x ∈ e.keyValues.getD [], strHasPre x.1 istioMetaPrefixStr = false) ∧
      e.keyValues ≠ some [] ∧
      (e.keyValues = none → e.hostEnvKeys ≠ []) := by
  intro e hne
  subst hne
  rcases envs? with _ | envs
  · simp [processEnvs] at h
  · simp only [processEnvs] at h
    rcases hsec : (envs.keyValues.getD []).lookup wasmSecretEnv with _ | sec
    · simp only [hsec, Except.ok.injEq, Prod.mk.injEq] at h
      exact stripAndPack_props envs e h.1
    · simp only [hsec] at h
      by_cases hempty : sec = ""
      · simp [hempty] at h
      · rw [if_neg hempty] at h
        simp only [Except.ok.injEq, Prod.mk.injEq] at h
        exact stripAndPack_props envs e h.1

/-- C7: a successfully converted resource carries no ISTIO_META-prefixed env
key — the stripped key/value map is never an empty non-nil map, and its map
is nilled (rather than the whole env block dropped) only when host env keys
remain. -/
theorem claim7_internal_env_keys_stripped
    (fetch : String → GetOptions → Except String String)
    (inspect : String → WasmFileInspect)
    (ec : TypedExtensionConfig) (w : WasmFilter) (nec : TypedExtensionConfig)
    (hok : convertWasmConfigFromRemoteToLocal fetch inspect ec w = Except.ok nec) :
    ∀ w2 e, nec.typedConfig = some (TypedConfigPayload.wasmHTTPOk w2) →
      (getVmConfig w2).bind (fun vm => vm.environmentVariables) = some e →
      (∀ x ∈ e.keyValues.getD [], strHasPre x.1 istioMetaPrefixStr = false) ∧
      e.keyValues ≠ some [] ∧
      (e.keyValues = none → e.hostEnvKeys ≠ []) := by
  intro w2 e hw2 he
  rcases hpe : processEnvs ((getVmConfig w).getD defaultVmConfig).environmentVariables
    with pe | ⟨ne, psec, pol, rv⟩
  · simp [convertWasmConfigFromRemoteToLocal, hpe] at hok
  rcases hrem : getRemoteOfVm ((getVmConfig w).getD defaultVmConfig) with _ | remote
  · simp [convertWasmConfigFromRemoteToLocal, hpe, hrem] at hok
  rcases hhu : remote.httpUri with _ | hu
  · simp [convertWasmConfigFromRemoteToLocal, hpe, hrem, hhu] at hok
  rcases hf : fetch hu.uri
      ⟨if remote.sha256 = "nil" then "" else remote.sha256, ec.name, rv,
        hu.timeout.getD 5000000000, psec, pol⟩ with msg | f
  · simp [convertWasmConfigFromRemoteToLocal, hpe, hrem, hhu, hf] at hok
  · simp only [convertWasmConfigFromRemoteToLocal, hpe, hrem, hhu, hf,
      Except.ok.injEq] at hok
    subst hok
    rcases hcfg : w.config with _ | c
    · rw [hcfg] at hw2
      simp only [Option.map_none', Option.some.injEq,
        TypedConfigPayload.wasmHTTPOk.injEq] at hw2
      subst hw2
      simp [getVmConfig] at he
    · rw [hcfg] at hw2
      simp only [Option.map_some', Option.some.injEq,
        TypedConfigPayload.wasmHTTPOk.injEq] at hw2
      subst hw2
      simp only [getVmConfig] at he
      simp only [Option.some_bind] at he
      exact processEnvs_newEnvs_props _ ne psec pol rv hpe e he

theorem claim7_witness :
    (∀ x ∈ (EnvironmentVariables.mk [] (some [("A", "b")])).keyValues.getD [],
      strHasPre x.1 istioMetaPrefixStr = false) ∧
    (EnvironmentVariables.mk [] (some [("A", "b")])).keyValues ≠ some [] ∧
    ((EnvironmentVariables.mk [] (some [("A", "b")])).keyValues = none →
      (EnvironmentVariables.mk [] (some [("A", "b")])).hostEnvKeys ≠ []) :=
  claim7_internal_env_keys_stripped (fun _ _ => Except.ok "/tmp/f")
    (fun _ => WasmFileInspect.unreadable)
    (TypedExtensionConfig.mk "res1" none)
    (WasmFilter.mk (some (PluginConfig.mk "plugin1" (some (VmConfig.mk "" false
      (some (EnvironmentVariables.mk [] (some [("ISTIO_META_X", "1"), ("A", "b")])))
      (some (AsyncDataSource.remote (RemoteDataSource.mk
        (some (HttpUri.mk "http://u" none)) "nil"))))))))
    (TypedExtensionConfig.mk "res1" (some (TypedConfigPayload.wasmHTTPOk
      (WasmFilter.mk (some (PluginConfig.mk "plugin1" (some (VmConfig.mk "" false
        (some (EnvironmentVariables.mk [] (some [("A", "b")])))
        (some (AsyncDataSource.localFile "/tmp/f"))))))))))
    (by decide)
    (WasmFilter.mk (some (PluginConfig.mk "plugin1" (some (VmConfig.mk "" false
      (some (EnvironmentVariables.mk [] (some [("A", "b")])))
      (some (AsyncDataSource.localFile "/tmp/f")))))))
    (EnvironmentVariables.mk [] (some [("A", "b")]))
    (by decide) (by decide)

end IstioWasm

namespace IstioWasm

theorem scanSections_skip (pre : List String)
    (hpre : ∀ n ∈ pre, strHasPre n wamrAotPrefixStr = false ∧ n ≠ wamrAot) :
    ∀ l, scanSections (pre ++ l) = scanSections l := by
  induction pre with
  | nil => intro l; rfl
  | cons n ns ih =>
    intro l
    have hn := hpre n (List.mem_cons_self n ns)
    have hns : ∀ m ∈ ns, strHasPre m wamrAotPrefixStr = false ∧ m ≠ wamrAot :=
      fun m hm => hpre m (List.mem_cons_of_mem n hm)
    simp only [List.cons_append, scanSections, hn.1, Bool.false_eq_true,
      if_false, if_neg hn.2]
    exact ih hns l

/-- C8: the post-fetch binary inspection fails open — it returns false when
the file is unreadable, when the module does not compile, and when the first
wamr-aot-prefixed section's version does not parse — and the conversion's
success or failure never depends on the inspection outcome. -/
theorem claim8_inspection_fails_open :
    containsWamrAotInCustomSection WasmFileInspect.unreadable = false ∧
    containsWamrAotInCustomSection WasmFileInspect.uncompilable = false ∧
    (∀ (pre : List String) (name : String) (rest : List String),
      (∀ n ∈ pre, strHasPre n wamrAotPrefixStr = false ∧ n ≠ wamrAot) →
      strHasPre name wamrAotPrefixStr = true →
      parseVersion (strDropData name wamrAotPrefixStr.length) = none →
      containsWamrAotInCustomSection
        (WasmFileInspect.compiled (pre ++ name :: rest)) = false) ∧
    (∀ (fetch : String → GetOptions → Except String String)
       (inspect1 inspect2 : String → WasmFileInspect)
       (ec : TypedExtensionConfig) (w : WasmFilter),
      (convertWasmConfigFromRemoteToLocal fetch inspect1 ec w).isOk =
        (convertWasmConfigFromRemoteToLocal fetch inspect2 ec w).isOk) := by
  refine ⟨rfl, rfl, ?_, ?_⟩
  · intro pre name rest hpre hname hparse
    simp only [containsWamrAotInCustomSection, scanSections_skip pre hpre,
      scanSections, hname, if_true, hparse]
  · intro fetch inspect1 inspect2 ec w
    rcases hpe : processEnvs ((getVmConfig w).getD defaultVmConfig).environmentVariables
      with pe | ⟨ne, psec, pol, rv⟩
    · simp [convertWasmConfigFromRemoteToLocal, hpe]
    rcases hrem : getRemoteOfVm ((getVmConfig w).getD defaultVmConfig) with _ | remote
    · simp [convertWasmConfigFromRemoteToLocal, hpe, hrem]
    rcases hhu : remote.httpUri with _ | hu
    · simp [convertWasmConfigFromRemoteToLocal, hpe, hrem, hhu]
    rcases hf : fetch hu.uri
        ⟨if remote.sha256 = "nil" then "" else remote.sha256, ec.name, rv,
          hu.timeout.getD 5000000000, psec, pol⟩ with msg | f
    · simp [convertWasmConfigFromRemoteToLocal, hpe, hrem, hhu, hf]
    · simp [convertWasmConfigFromRemoteToLocal, hpe, hrem, hhu, hf,
        Except.isOk, Except.toBool]

theorem claim8_witness :
    containsWamrAotInCustomSection WasmFileInspect.unreadable = false ∧
    containsWamrAotInCustomSection
      (WasmFileInspect.compiled ["other", "wamr-aot-beta"]) = false :=
  ⟨claim8_inspection_fails_open.1,
    claim8_inspection_fails_open.2.2.1 ["other"] "wamr-aot-beta" []
      (by decide) (by decide) (by decide)⟩

/-- C9: the first custom section whose name carries the wamr-aot- version
prefix decides the runtime hint — granted exactly below version 2.1.0, with
later sections never examined — a bare wamr-aot section reached first grants
the hint, and with no such section there is no hint. -/
theorem claim9_first_aot_section_decides :
    (∀ (pre : List String) (name : String) (rest : List String) (v : List Nat),
      (∀ n ∈ pre, strHasPre n wamrAotPrefixStr = false ∧ n ≠ wamrAot) →
      strHasPre name wamrAotPrefixStr = true →
      parseVersion (strDropData name wamrAotPrefixStr.length) = some v →
      containsWamrAotInCustomSection
        (WasmFileInspect.compiled (pre ++ name :: rest)) = versionLT v [2, 1, 0]) ∧
    (∀ (pre rest : List String),
      (∀ n ∈ pre, strHasPre n wamrAotPrefixStr = false ∧ n ≠ wamrAot) →
      containsWamrAotInCustomSection
        (WasmFileInspect.compiled (pre ++ wamrAot :: rest)) = true) ∧
    (∀ names : List String,
      (∀ n ∈ names, strHasPre n wamrAotPrefixStr = false ∧ n ≠ wamrAot) →
      containsWamrAotInCustomSection (WasmFileInspect.compiled names) = false) := by
  have hmax : (parseVersion wamrAotMaxVersion).getD [] = [2, 1, 0] := by decide
  refine ⟨?_, ?_, ?_⟩
  · intro pre name rest v hpre hname hparse
    simp only [containsWamrAotInCustomSection, scanSections_skip pre hpre,
      scanSections, hname, if_true, hparse, hmax]
  · intro pre rest hpre
    simp only [containsWamrAotInCustomSection, scanSections_skip pre hpre,
      scanSections]
    have : strHasPre wamrAot wamrAotPrefixStr = false := by decide
    simp [this]
  · intro names hnames
    have := scanSections_skip names hnames []
    simpa [containsWamrAotInCustomSection, scanSections] using this

theorem claim9_witness :
    (containsWamrAotInCustomSection
      (WasmFileInspect.compiled ["x", "wamr-aot-2.0.9", "wamr-aot"]) =
        versionLT [2, 0, 9] [2, 1, 0]) ∧
    (containsWamrAotInCustomSection
      (WasmFileInspect.compiled ["x", "wamr-aot-2.1.0", "wamr-aot"]) =
        versionLT [2, 1, 0] [2, 1, 0]) ∧
    containsWamrAotInCustomSection
      (WasmFileInspect.compiled ["x", "wamr-aot"]) = true :=
  ⟨claim9_first_aot_section_decides.1 ["x"] "wamr-aot-2.0.9" ["wamr-aot"] [2, 0, 9]
      (by decide) (by decide) (by decide),
    claim9_first_aot_section_decides.1 ["x"] "wamr-aot-2.1.0" ["wamr-aot"] [2, 1, 0]
      (by decide) (by decide) (by decide),
    claim9_first_aot_section_decides.2.1 ["x"] [] (by decide)⟩

namespace SingleFlight

theorem sfRun_arrivals (k : String) (cs : List Nat) (ws : List Nat) (fl : List String) :
    sfRun (SFState.mk [(k, ws)] [] [] fl) (cs.map (SFEvent.arrive · k)) =
      SFState.mk [(k, cs.reverse ++ ws)] [] [] fl := by
  induction cs generalizing ws with
  | nil => simp [sfRun]
  | cons c cs ih =>
    have hstep : sfStep (SFState.mk [(k, ws)] [] [] fl) (SFEvent.arrive c k) =
        SFState.mk [(k, c :: ws)] [] [] fl := by
      simp [sfStep, List.lookup, setWaiters]
    simp only [List.map_cons, sfRun, List.foldl_cons]
    rw [show List.foldl sfStep (sfStep (SFState.mk [(k, ws)] [] [] fl)
      (SFEvent.arrive c k)) (cs.map (SFEvent.arrive · k)) =
      sfRun (sfStep (SFState.mk [(k, ws)] [] [] fl) (SFEvent.arrive c k))
        (cs.map (SFEvent.arrive · k)) from rfl]
    rw [hstep, ih (c :: ws)]
    simp [List.append_assoc]

/-- C1: in the single-flight coordinator modelled from the spec, any number of
resolve calls for one key arriving while no cached entry exists and one fetch
completion produce exactly one logged network fetch, every caller receives
the completed fetch's outcome, and no caller receives any other outcome. -/
theorem claim1_single_flight_dedup (k : String) (cs : List Nat)
    (r : Except String String) (hne : cs ≠ []) :
    (sfRun sfInit (cs.map (SFEvent.arrive · k) ++ [SFEvent.finish k r])).fetchLog.count k = 1 ∧
    (∀ c ∈ cs, (c, r) ∈
      (sfRun sfInit (cs.map (SFEvent.arrive · k) ++ [SFEvent.finish k r])).results) ∧
    (∀ c r', (c, r') ∈
      (sfRun sfInit (cs.map (SFEvent.arrive · k) ++ [SFEvent.finish k r])).results →
      r' = r) := by
  rcases cs with _ | ⟨c0, cs'⟩
  · exact absurd rfl hne
  have hsplit : sfRun sfInit ((c0 :: cs').map (SFEvent.arrive · k) ++ [SFEvent.finish k r]) =
      sfStep (sfRun sfInit ((c0 :: cs').map (SFEvent.arrive · k))) (SFEvent.finish k r) := by
    simp [sfRun, List.foldl_append]
  have hfirst : sfStep sfInit (SFEvent.arrive c0 k) =
      SFState.mk [(k, [c0])] [] [] [k] := by
    simp [sfStep, sfInit, List.lookup]
  have harr : sfRun sfInit ((c0 :: cs').map (SFEvent.arrive · k)) =
      SFState.mk [(k, cs'.reverse ++ [c0])] [] [] [k] := by
    simp only [List.map_cons, sfRun, List.foldl_cons]
    rw [show List.foldl sfStep (sfStep sfInit (SFEvent.arrive c0 k))
      (cs'.map (SFEvent.arrive · k)) =
      sfRun (sfStep sfInit (SFEvent.arrive c0 k)) (cs'.map (SFEvent.arrive · k)) from rfl]
    rw [hfirst, sfRun_arrivals k cs' [c0] [k]]
  have hfin : sfStep (SFState.mk [(k, cs'.reverse ++ [c0])] [] [] [k]) (SFEvent.finish k r) =
      SFState.mk [] ((cs'.reverse ++ [c0]).map (fun c => (c, r)))
        (match r with
          | Except.ok path => [(k, path)]
          | Except.error _ => []) [k] := by
    rcases r with e | p <;>
      simp [sfStep, List.lookup, dropKey]
  rw [hsplit, harr, hfin]
  refine ⟨?_, ?_, ?_⟩
  · simp [List.count_cons]
  · intro c hc
    have hmem : c ∈ cs'.reverse ++ [c0] := by
      rcases List.mem_cons.mp hc with h | h
      · subst h; simp
      · simp [h]
    exact List.mem_map_of_mem (fun c => (c, r)) hmem
  · intro c r' hmem
    obtain ⟨a, _, hpair⟩ := List.mem_map.mp hmem
    exact (congrArg Prod.snd hpair).symm

theorem claim1_witness :
    (sfRun sfInit (([1, 2] : List Nat).map (SFEvent.arrive · "k") ++
      [SFEvent.finish "k" (Except.ok "/p")])).fetchLog.count "k" = 1 ∧
    (∀ c ∈ ([1, 2] : List Nat), (c, Except.ok "/p") ∈
      (sfRun sfInit (([1, 2] : List Nat).map (SFEvent.arrive · "k") ++
        [SFEvent.finish "k" (Except.ok "/p")])).results) ∧
    (∀ c r', (c, r') ∈
      (sfRun sfInit (([1, 2] : List Nat).map (SFEvent.arrive · "k") ++
        [SFEvent.finish "k" (Except.ok "/p")])).results →
      r' = Except.ok "/p") :=
  claim1_single_flight_dedup "k" [1, 2] (Except.ok "/p") (by decide)

end SingleFlight

end IstioWasm
